import Mathlib

/-!
Verification of the influxdb-relay core (`src/relay/http.go`, `src/relay/retry.go`)
against its natural-language specification.

The Go code is shallowly embedded: byte slices become `List Nat`, the
`responseData` record and the retry buffer's linked list of batches become
Lean structures, and each stateful routine becomes an explicit
state-passing function over those structures.  Durations are modelled in
milliseconds as `Nat`.
-/

/-- Model of Go `responseData` (http.go): status code, body bytes and the
two captured content headers. -/
structure responseData where
  ContentType : String
  ContentEncoding : String
  StatusCode : Nat
  Body : List Nat
deriving DecidableEq, Repr

/-- The reply the `/write` handler renders to the client: `204 No Content`,
a forwarded backend response (`resp.Write(w)`), or a `jsonError` page. -/
inductive clientReply where
  | noContent : clientReply
  | forward : responseData → clientReply
  | jsonErr : Nat → String → clientReply
deriving DecidableEq, Repr

/-- One backend outcome as seen by the fan-out goroutines of `ServeHTTP`:
`none` is a transport error (the goroutine logs and sends nothing on the
channel), `some r` is an HTTP response. -/
def collectResponses (outs : List (Option responseData)) : List responseData :=
  outs.filterMap id

/-- The response-selection loop of `ServeHTTP` (http.go lines 355-382):
ranges over arriving responses; a 2xx replies 204 and returns, a 4xx is
forwarded and returns, anything else is held in `errResponse`; after the
channel closes, the held response is forwarded, or a JSON 503 if none. -/
def selectLoop : List responseData → Option responseData → clientReply
  | [], none => .jsonErr 503 "unable to write points"
  | [], some e => .forward e
  | r :: rest, _ =>
    if r.StatusCode / 100 = 2 then .noContent
    else if r.StatusCode / 100 = 4 then .forward r
    else selectLoop rest (some r)

/-- Client response synthesized by `ServeHTTP` for a list of backend
outcomes, in arrival order. -/
def selectResponse (outs : List (Option responseData)) : clientReply :=
  selectLoop (collectResponses outs) none

/-- The value of `errResponse` after the selection loop has consumed `rs`
without meeting a 2xx/4xx, starting from `acc`. -/
def holdLast (rs : List responseData) (acc : Option responseData) : Option responseData :=
  match rs with
  | [] => acc
  | r :: rest => holdLast rest (some r)

/-- A response that decides the selection loop immediately: 2xx or 4xx. -/
def decider (r : responseData) : Bool :=
  (r.StatusCode / 100 == 2) || (r.StatusCode / 100 == 4)

lemma holdLast_mem (rs : List responseData) (acc : Option responseData) (e : responseData)
    (h : holdLast rs acc = some e) : e ∈ rs ∨ acc = some e := by
  induction rs generalizing acc with
  | nil => exact Or.inr h
  | cons r rest ih =>
    rcases ih (some r) h with hm | hs
    · exact Or.inl (List.mem_cons_of_mem _ hm)
    · exact Or.inl (by simp_all)

lemma selectLoop_no_decider (rs : List responseData) (acc : Option responseData)
    (h : ∀ r ∈ rs, decider r = false) :
    selectLoop rs acc =
      match holdLast rs acc with
      | some e => .forward e
      | none => .jsonErr 503 "unable to write points" := by
  induction rs generalizing acc with
  | nil => cases acc <;> rfl
  | cons r rest ih =>
    have hr := h r (List.mem_cons_self r rest)
    have h2 : ¬ r.StatusCode / 100 = 2 := by
      intro hh; simp [decider, hh] at hr
    have h4 : ¬ r.StatusCode / 100 = 4 := by
      intro hh; simp [decider, hh] at hr
    simp only [selectLoop, if_neg h2, if_neg h4]
    exact ih (some r) (fun x hx => h x (List.mem_cons_of_mem _ hx))

lemma selectLoop_find (rs : List responseData) (acc : Option responseData) (d : responseData)
    (h : rs.find? decider = some d) :
    selectLoop rs acc =
      if d.StatusCode / 100 = 2 then .noContent else .forward d := by
  induction rs generalizing acc with
  | nil => simp [List.find?] at h
  | cons r rest ih =>
    by_cases hd : decider r = true
    · rw [List.find?_cons_of_pos _ hd] at h
      cases h
      by_cases h2 : d.StatusCode / 100 = 2
      · simp [selectLoop, h2]
      · have h4 : d.StatusCode / 100 = 4 := by
          simp [decider, h2] at hd; exact hd
        simp [selectLoop, h2, h4]
    · have hdf : decider r = false := by
        cases hx : decider r with
        | false => rfl
        | true => exact absurd hx hd
      rw [List.find?_cons_of_neg _ (by simp [hdf])] at h
      have h2 : ¬ r.StatusCode / 100 = 2 := by
        intro hh; simp [decider, hh] at hdf
      have h4 : ¬ r.StatusCode / 100 = 4 := by
        intro hh; simp [decider, hh] at hdf
      simp only [selectLoop, if_neg h2, if_neg h4]
      exact ih (some r) h

/-- C1: Response selection in the HTTP ingress.  Scanning backend outcomes
in arrival order (transport errors contribute nothing to the channel):
the first 2xx-or-4xx response decides — 2xx yields 204, 4xx is forwarded;
if every response is 5xx the client gets one of the 5xx responses (the
code keeps the last); if no backend produced any HTTP response at all the
client gets the JSON 503 `unable to write points`. -/
theorem serveHTTP_response_selection (outs : List (Option responseData)) :
    (∀ d, (collectResponses outs).find? decider = some d →
      (d.StatusCode / 100 = 2 → selectResponse outs = .noContent) ∧
      (d.StatusCode / 100 = 4 → selectResponse outs = .forward d)) ∧
    ((∀ r ∈ collectResponses outs, r.StatusCode / 100 = 5) →
      collectResponses outs ≠ [] →
      ∃ e ∈ collectResponses outs, e.StatusCode / 100 = 5 ∧
        selectResponse outs = .forward e) ∧
    (collectResponses outs = [] →
      selectResponse outs = .jsonErr 503 "unable to write points") := by
  refine ⟨?_, ?_, ?_⟩
  · intro d hd
    constructor
    · intro h2
      unfold selectResponse
      rw [selectLoop_find _ none d hd, if_pos h2]
    · intro h4
      unfold selectResponse
      rw [selectLoop_find _ none d hd, if_neg (by omega)]
  · intro h5 hne
    have hnod : ∀ r ∈ collectResponses outs, decider r = false := by
      intro r hr
      have := h5 r hr
      simp [decider, this]
    unfold selectResponse
    rw [selectLoop_no_decider _ none hnod]
    cases hl : holdLast (collectResponses outs) none with
    | none =>
      exfalso
      cases hc : collectResponses outs with
      | nil => exact hne hc
      | cons a l =>
        rw [hc] at hl
        -- holdLast of a nonempty list starting from anything is `some`
        clear hc hne hnod h5
        induction l generalizing a with
        | nil => simp [holdLast] at hl
        | cons b l ih => exact ih b hl
    | some e =>
      rcases holdLast_mem _ _ _ hl with hm | hval
      · exact ⟨e, hm, h5 e hm, rfl⟩
      · cases hval
  · intro h
    unfold selectResponse
    rw [h]
    rfl

/-- Witness for C1 at concrete inputs: two transport errors produce the
JSON 503, and an arrival order [500, 404] forwards the 404. -/
theorem serveHTTP_response_selection_witness :
    selectResponse [none, none] = .jsonErr 503 "unable to write points" ∧
    selectResponse [some ⟨"", "", 500, []⟩, some ⟨"text/plain", "", 404, [97]⟩] =
      .forward ⟨"text/plain", "", 404, [97]⟩ := by
  constructor
  · exact (serveHTTP_response_selection [none, none]).2.2 rfl
  · exact (((serveHTTP_response_selection
      [some ⟨"", "", 500, []⟩, some ⟨"text/plain", "", 404, [97]⟩]).1
      ⟨"text/plain", "", 404, [97]⟩ (by decide)).2 (by decide))

/-- Model of Go `batch` (retry.go): the coalescing key, the body fragments
in append order, and the tracked byte size.  The waiter group and stored
response are handled by the drain model. -/
structure batch where
  query : String
  bufs : List (List Nat)
  size : Nat
deriving DecidableEq, Repr

/-- Go `newBatch`: a fresh batch holding exactly one body. -/
def newBatch (buf : List Nat) (query : String) : batch :=
  { query := query, bufs := [buf], size := buf.length }

/-- Model of Go `bufferList`: the linked list of batches (head first), the
tracked total size, and the two configured bounds. -/
structure bufferList where
  head : List batch
  size : Nat
  maxSize : Nat
  maxBatch : Nat
deriving DecidableEq, Repr

/-- Go `newBufferList`. -/
def newBufferList (maxSize maxBatch : Nat) : bufferList :=
  { head := [], size := 0, maxSize := maxSize, maxBatch := maxBatch }

/-- The pointer walk of `bufferList.add` (retry.go lines 165-181): skip
batches that do not match the query or would exceed `maxBatch`; extend the
first batch that fits, else append a new tail batch. -/
def addWalk (bs : List batch) (buf : List Nat) (query : String) (maxBatch : Nat) :
    List batch :=
  match bs with
  | [] => [newBatch buf query]
  | b :: rest =>
    if b.query = query ∧ b.size + buf.length ≤ maxBatch then
      { b with size := b.size + buf.length, bufs := b.bufs ++ [buf] } :: rest
    else
      b :: addWalk rest buf query maxBatch

/-- Go `bufferList.add`: reject with `ErrBufferFull` (`none`) if the body
would push the tracked size over `maxSize`, otherwise grow the size and
walk the list. -/
def bufferList.add (l : bufferList) (buf : List Nat) (query : String) :
    Option bufferList :=
  if l.size + buf.length > l.maxSize then none
  else some { l with size := l.size + buf.length,
                     head := addWalk l.head buf query l.maxBatch }

/-- Go `bufferList.pop`: blocks (`none`) while the tracked size is zero,
otherwise removes the head batch and subtracts its size immediately. -/
def bufferList.pop (l : bufferList) : Option (batch × bufferList) :=
  if l.size = 0 then none
  else
    match l.head with
    | [] => none
    | b :: rest => some (b, { l with head := rest, size := l.size - b.size })

/-- An operation on the retry queue. -/
inductive Op where
  | add : List Nat → String → Op
  | pop : Op
deriving DecidableEq, Repr

/-- One queue operation; a rejected `add` and a blocked `pop` leave the
state unchanged. -/
def step (l : bufferList) : Op → bufferList
  | .add buf q =>
    match l.add buf q with
    | some l' => l'
    | none => l
  | .pop =>
    match l.pop with
    | some (_, l') => l'
    | none => l

/-- Run a sequence of queue operations. -/
def runOps (l : bufferList) (ops : List Op) : bufferList :=
  ops.foldl step l

/-- Total byte size of the queued batches. -/
def totalSize (bs : List batch) : Nat :=
  match bs with
  | [] => 0
  | b :: rest => b.size + totalSize rest

/-- Wellformedness of the tracked sizes: the list's `size` field equals
the sum of batch sizes, which stays within `maxSize`, and each batch's
`size` field equals the sum of its fragment lengths. -/
def listWF (l : bufferList) : Prop :=
  l.size = totalSize l.head ∧ l.size ≤ l.maxSize ∧
    ∀ b ∈ l.head, b.size = (b.bufs.map List.length).sum

lemma totalSize_addWalk (bs : List batch) (buf : List Nat) (q : String) (mb : Nat) :
    totalSize (addWalk bs buf q mb) = totalSize bs + buf.length := by
  induction bs with
  | nil => simp [addWalk, totalSize, newBatch]
  | cons b rest ih =>
    by_cases hc : b.query = q ∧ b.size + buf.length ≤ mb
    · simp [addWalk, hc, totalSize]; omega
    · simp [addWalk, hc, totalSize, ih]; omega

lemma fragsum_addWalk (bs : List batch) (buf : List Nat) (q : String) (mb : Nat)
    (h : ∀ b ∈ bs, b.size = (b.bufs.map List.length).sum) :
    ∀ b ∈ addWalk bs buf q mb, b.size = (b.bufs.map List.length).sum := by
  induction bs with
  | nil =>
    intro b hb
    simp [addWalk, newBatch] at hb
    subst hb
    simp [newBatch]
  | cons b0 rest ih =>
    intro b hb
    by_cases hc : b0.query = q ∧ b0.size + buf.length ≤ mb
    · simp [addWalk, hc] at hb
      rcases hb with hb | hb
      · subst hb
        have := h b0 (List.mem_cons_self _ _)
        simp [this]
      · exact h b (List.mem_cons_of_mem _ hb)
    · simp [addWalk, hc] at hb
      rcases hb with hb | hb
      · subst hb; exact h b (List.mem_cons_self _ _)
      · exact ih (fun x hx => h x (List.mem_cons_of_mem _ hx)) b hb

lemma add_WF (l : bufferList) (buf : List Nat) (q : String) (l' : bufferList)
    (hWF : listWF l) (h : l.add buf q = some l') :
    listWF l' ∧ l'.maxSize = l.maxSize ∧ l'.maxBatch = l.maxBatch ∧
      l'.size = l.size + buf.length := by
  unfold bufferList.add at h
  by_cases hg : l.size + buf.length > l.maxSize
  · simp [hg] at h
  · simp [hg] at h
    subst h
    obtain ⟨h1, h2, h3⟩ := hWF
    refine ⟨⟨?_, ?_, ?_⟩, rfl, rfl, rfl⟩
    · simp [totalSize_addWalk, h1]
    · simpa using Nat.le_of_not_lt hg
    · exact fragsum_addWalk l.head buf q l.maxBatch h3

lemma pop_WF (l : bufferList) (b : batch) (l' : bufferList)
    (hWF : listWF l) (h : l.pop = some (b, l')) :
    listWF l' ∧ l'.maxSize = l.maxSize ∧ l'.maxBatch = l.maxBatch ∧
      l'.size = l.size - b.size ∧ l.head = b :: l'.head := by
  unfold bufferList.pop at h
  by_cases hz : l.size = 0
  · simp [hz] at h
  · simp [hz] at h
    obtain ⟨h1, h2, h3⟩ := hWF
    cases hh : l.head with
    | nil => rw [hh] at h; simp at h
    | cons b0 rest =>
      rw [hh] at h
      simp at h
      obtain ⟨hb, hl'⟩ := h
      subst hb
      subst hl'
      rw [hh] at h1
      simp [totalSize] at h1
      refine ⟨⟨?_, ?_, ?_⟩, rfl, rfl, rfl, by simp [hh]⟩
      · simp [h1]
      · simp; omega
      · intro x hx
        exact h3 x (by rw [hh]; exact List.mem_cons_of_mem _ hx)

lemma step_WF (l : bufferList) (op : Op) (hWF : listWF l) :
    listWF (step l op) ∧ (step l op).maxSize = l.maxSize ∧
      (step l op).maxBatch = l.maxBatch := by
  cases op with
  | add buf q =>
    cases h : l.add buf q with
    | none =>
      have hs : step l (.add buf q) = l := by simp [step, h]
      rw [hs]; exact ⟨hWF, rfl, rfl⟩
    | some l' =>
      obtain ⟨h1, h2, h3, _⟩ := add_WF l buf q l' hWF h
      have hs : step l (.add buf q) = l' := by simp [step, h]
      rw [hs]; exact ⟨h1, h2, h3⟩
  | pop =>
    cases h : l.pop with
    | none =>
      have hs : step l .pop = l := by simp [step, h]
      rw [hs]; exact ⟨hWF, rfl, rfl⟩
    | some p =>
      obtain ⟨h1, h2, h3, _⟩ := pop_WF l p.1 p.2 hWF (by rw [h])
      have hs : step l .pop = p.2 := by simp [step, h]
      rw [hs]; exact ⟨h1, h2, h3⟩

lemma runOps_cons (l : bufferList) (op : Op) (rest : List Op) :
    runOps l (op :: rest) = runOps (step l op) rest := rfl

lemma runOps_WF (l : bufferList) (ops : List Op) (hWF : listWF l) :
    listWF (runOps l ops) ∧ (runOps l ops).maxSize = l.maxSize ∧
      (runOps l ops).maxBatch = l.maxBatch := by
  induction ops generalizing l with
  | nil => exact ⟨hWF, rfl, rfl⟩
  | cons op rest ih =>
    obtain ⟨h1, h2, h3⟩ := step_WF l op hWF
    obtain ⟨g1, g2, g3⟩ := ih (step l op) h1
    rw [runOps_cons]
    exact ⟨g1, g2.trans h2, g3.trans h3⟩

lemma newBufferList_WF (cap mb : Nat) : listWF (newBufferList cap mb) := by
  refine ⟨rfl, by simp [newBufferList], ?_⟩
  intro b hb
  simp [newBufferList] at hb

/-- C3: Capacity invariant of the retry queue.  Under any sequence of
`add`/`pop` operations from a fresh queue, the total byte size of the
queued batches never exceeds the configured capacity, and an `add` whose
body would push the total over capacity returns buffer-full (`none`) and
leaves the queue completely unchanged. -/
theorem retryQueue_capacity (cap mb : Nat) (ops : List Op) :
    totalSize (runOps (newBufferList cap mb) ops).head ≤ cap ∧
    (∀ buf q,
      totalSize (runOps (newBufferList cap mb) ops).head + buf.length > cap →
        (runOps (newBufferList cap mb) ops).add buf q = none ∧
        step (runOps (newBufferList cap mb) ops) (.add buf q) =
          runOps (newBufferList cap mb) ops) := by
  obtain ⟨⟨h1, h2, _⟩, hms, _⟩ :=
    runOps_WF (newBufferList cap mb) ops (newBufferList_WF cap mb)
  have hcap : (runOps (newBufferList cap mb) ops).maxSize = cap := by
    simpa [newBufferList] using hms
  constructor
  · rw [← h1]; rw [hcap] at h2; exact h2
  · intro buf q hover
    have hg : (runOps (newBufferList cap mb) ops).size + buf.length >
        (runOps (newBufferList cap mb) ops).maxSize := by
      rw [hcap, h1]; exact hover
    constructor
    · unfold bufferList.add
      simp [hg]
    · simp [step, bufferList.add, hg]

/-- Witness for C3: capacity 2; after adding one byte, a two-byte add is
rejected. -/
theorem retryQueue_capacity_witness :
    totalSize (runOps (newBufferList 2 10) [.add [7] "x"]).head ≤ 2 ∧
    (runOps (newBufferList 2 10) [.add [7] "x"]).add [1, 1] "y" = none := by
  refine ⟨(retryQueue_capacity 2 10 [.add [7] "x"]).1, ?_⟩
  exact ((retryQueue_capacity 2 10 [.add [7] "x"]).2 [1, 1] "y" (by decide)).1

lemma addWalk_no_fit (bs : List batch) (buf : List Nat) (q : String) (mb : Nat)
    (h : ∀ b ∈ bs, ¬(b.query = q ∧ b.size + buf.length ≤ mb)) :
    addWalk bs buf q mb = bs ++ [newBatch buf q] := by
  induction bs with
  | nil => rfl
  | cons b rest ih =>
    have hb := h b (List.mem_cons_self _ _)
    simp only [addWalk, if_neg hb, List.cons_append, List.cons.injEq, true_and]
    exact ih (fun x hx => h x (List.mem_cons_of_mem _ hx))

lemma addWalk_mem_cases (bs : List batch) (buf : List Nat) (q : String) (mb : Nat)
    (b : batch) (hb : b ∈ addWalk bs buf q mb) :
    b ∈ bs ∨ b = newBatch buf q ∨
      ∃ b0 ∈ bs, b0.query = q ∧ b0.size + buf.length ≤ mb ∧
        b = { b0 with size := b0.size + buf.length, bufs := b0.bufs ++ [buf] } := by
  induction bs with
  | nil =>
    simp [addWalk] at hb
    exact Or.inr (Or.inl hb)
  | cons b0 rest ih =>
    by_cases hc : b0.query = q ∧ b0.size + buf.length ≤ mb
    · simp only [addWalk, if_pos hc] at hb
      rcases List.mem_cons.mp hb with hx | hx
      · exact Or.inr (Or.inr ⟨b0, List.mem_cons_self _ _, hc.1, hc.2, hx⟩)
      · exact Or.inl (List.mem_cons_of_mem _ hx)
    · simp only [addWalk, if_neg hc] at hb
      rcases List.mem_cons.mp hb with hx | hx
      · exact Or.inl (hx ▸ List.mem_cons_self _ _)
      · rcases ih hx with h1 | h2 | ⟨x, hx1, hx2, hx3, hx4⟩
        · exact Or.inl (List.mem_cons_of_mem _ h1)
        · exact Or.inr (Or.inl h2)
        · exact Or.inr (Or.inr ⟨x, List.mem_cons_of_mem _ hx1, hx2, hx3, hx4⟩)

lemma add_eq (l : bufferList) (buf : List Nat) (q : String) (l' : bufferList)
    (h : l.add buf q = some l') :
    l'.head = addWalk l.head buf q l.maxBatch ∧ l'.size = l.size + buf.length ∧
      l'.maxSize = l.maxSize ∧ l'.maxBatch = l.maxBatch ∧
      l.size + buf.length ≤ l.maxSize := by
  unfold bufferList.add at h
  by_cases hg : l.size + buf.length > l.maxSize
  · simp [hg] at h
  · simp [hg] at h
    subst h
    exact ⟨rfl, rfl, rfl, rfl, Nat.le_of_not_lt hg⟩

lemma pop_eq (l : bufferList) (b : batch) (l' : bufferList)
    (h : l.pop = some (b, l')) :
    l.head = b :: l'.head ∧ l'.size = l.size - b.size ∧
      l'.maxSize = l.maxSize ∧ l'.maxBatch = l.maxBatch ∧ l.size ≠ 0 := by
  unfold bufferList.pop at h
  by_cases hz : l.size = 0
  · simp [hz] at h
  · simp [hz] at h
    cases hh : l.head with
    | nil => rw [hh] at h; simp at h
    | cons b0 rest =>
      rw [hh] at h
      simp at h
      obtain ⟨hb, hl'⟩ := h
      subst hb
      subst hl'
      exact ⟨by simp [hh], rfl, rfl, rfl, hz⟩

lemma step_maxBatch_eq (l : bufferList) (op : Op) :
    (step l op).maxBatch = l.maxBatch := by
  cases op with
  | add buf q =>
    cases h : l.add buf q with
    | none => simp [step, h]
    | some l' =>
      have := (add_eq l buf q l' h).2.2.2.1
      simp [step, h, this]
  | pop =>
    cases h : l.pop with
    | none => simp [step, h]
    | some p =>
      have := (pop_eq l p.1 p.2 (by rw [h])).2.2.2.1
      simp [step, h, this]

lemma step_maxBatch_bound (l : bufferList) (op : Op) (mb : Nat)
    (hmb : l.maxBatch = mb)
    (hsz : ∀ b ∈ l.head, b.size ≤ mb)
    (hop : ∀ buf q, op = Op.add buf q → buf.length ≤ mb) :
    ∀ b ∈ (step l op).head, b.size ≤ mb := by
  cases op with
  | add buf q =>
    cases h : l.add buf q with
    | none => simpa [step, h] using hsz
    | some l' =>
      have hhead := (add_eq l buf q l' h).1
      intro b hbmem
      rw [step, h] at hbmem
      rw [hhead, hmb] at hbmem
      rcases addWalk_mem_cases _ _ _ _ _ hbmem with h1 | h2 | ⟨b0, _, _, hfit, heq⟩
      · exact hsz b h1
      · rw [h2]
        simpa [newBatch] using hop buf q rfl
      · rw [heq]
        simpa using hfit
  | pop =>
    cases h : l.pop with
    | none => simpa [step, h] using hsz
    | some p =>
      have hhead := (pop_eq l p.1 p.2 (by rw [h])).1
      intro b hbmem
      rw [step, h] at hbmem
      exact hsz b (by rw [hhead]; exact List.mem_cons_of_mem _ hbmem)

lemma runOps_maxBatch_bound (l : bufferList) (ops : List Op) (mb : Nat)
    (hmb : l.maxBatch = mb)
    (hsz : ∀ b ∈ l.head, b.size ≤ mb)
    (hops : ∀ buf q, Op.add buf q ∈ ops → buf.length ≤ mb) :
    ∀ b ∈ (runOps l ops).head, b.size ≤ mb := by
  induction ops generalizing l with
  | nil => exact hsz
  | cons op rest ih =>
    rw [runOps_cons]
    exact ih (step l op)
      ((step_maxBatch_eq l op).trans hmb)
      (step_maxBatch_bound l op mb hmb hsz (fun buf q hop => by
        subst hop; exact hops buf q (List.mem_cons_self _ _)))
      (fun buf q hin => hops buf q (List.mem_cons_of_mem _ hin))

/-- C4 counterexample: with `max-batch-size = 2`, adding a 3-byte body to
an empty queue succeeds and creates a batch of size 3 > 2, so a successful
`add` can leave a batch larger than the maximum batch size. -/
theorem retryQueue_maxBatch_cx :
    (newBufferList 10 2).add [1, 1, 1] "q" ≠ none ∧
    ∃ b ∈ (runOps (newBufferList 10 2) [.add [1, 1, 1] "q"]).head,
      (runOps (newBufferList 10 2) [.add [1, 1, 1] "q"]).maxBatch < b.size := by
  decide

/-- C4 (amended): after any successful `add` *of bodies no longer than
`max-batch-size`*, no batch exceeds `max-batch-size`; a body extends an
existing batch only if that batch matches the query and the extended size
stays within `max-batch-size`; when no batch can absorb the body it
becomes a new tail batch (this is also how a single body longer than
`max-batch-size` yields an oversized batch). -/
theorem retryQueue_maxBatch_amended (cap mb : Nat) (ops : List Op)
    (hops : ∀ buf q, Op.add buf q ∈ ops → buf.length ≤ mb) :
    (∀ b ∈ (runOps (newBufferList cap mb) ops).head, b.size ≤ mb) ∧
    (∀ (bs : List batch) (buf : List Nat) (q : String) (mb' : Nat),
      (∀ b ∈ bs, ¬(b.query = q ∧ b.size + buf.length ≤ mb')) →
        addWalk bs buf q mb' = bs ++ [newBatch buf q]) ∧
    (∀ (bs : List batch) (buf : List Nat) (q : String) (mb' : Nat) (b : batch),
      b ∈ addWalk bs buf q mb' →
        b ∈ bs ∨ b = newBatch buf q ∨
        ∃ b0 ∈ bs, b0.query = q ∧ b0.size + buf.length ≤ mb' ∧
          b = { b0 with size := b0.size + buf.length, bufs := b0.bufs ++ [buf] }) := by
  refine ⟨?_, addWalk_no_fit, addWalk_mem_cases⟩
  exact runOps_maxBatch_bound (newBufferList cap mb) ops mb rfl
    (by intro b hb; simp [newBufferList] at hb) hops

/-- Witness for C4 (amended) at a concrete run: two small bodies coalesce
and stay within the bound. -/
theorem retryQueue_maxBatch_amended_witness :
    (batch.mk "q" [[1], [2, 2]] 3).size ≤ 3 :=
  (retryQueue_maxBatch_amended 10 3 [.add [1] "q", .add [2, 2] "q"]
    (by
      intro buf q h
      rcases List.mem_cons.mp h with h1 | h2
      · obtain ⟨rfl, rfl⟩ := Op.add.inj h1
        decide
      · rcases List.mem_cons.mp h2 with h3 | h4
        · obtain ⟨rfl, rfl⟩ := Op.add.inj h3
          decide
        · simp at h4)).1
    (batch.mk "q" [[1], [2, 2]] 3) (by decide)

/-- The drainer's concatenation loop (`for _, b := range batch.bufs {
buf.Write(b) }`): sequential append of the fragments. -/
def writeAll : List (List Nat) → List Nat
  | [] => []
  | b :: rest => b ++ writeAll rest

/-- Repeatedly pop and concatenate, as the drain loop does, up to `fuel`
batches; a blocked pop ends the run. -/
def drainAll : Nat → bufferList → List (String × List Nat)
  | 0, _ => []
  | fuel + 1, l =>
    match l.pop with
    | none => []
    | some (b, l') => (b.query, writeAll b.bufs) :: drainAll fuel l'

/-- The fragments queued for query `qq`, in drain order. -/
def fragmentsOf (qq : String) : List batch → List (List Nat)
  | [] => []
  | b :: rest => (if b.query = qq then b.bufs else []) ++ fragmentsOf qq rest

/-- The bodies submitted with query `qq`, in submission order. -/
def addedFor (qq : String) : List (List Nat × String) → List (List Nat)
  | [] => []
  | p :: ps => (if p.2 = qq then [p.1] else []) ++ addedFor qq ps

/-- Run a sequence of `add`s (body, query); a rejected add changes
nothing. -/
def runAddsL (l : bufferList) (pairs : List (List Nat × String)) : bufferList :=
  runOps l (pairs.map (fun p => Op.add p.1 p.2))

/-- True when every `add` of the sequence is accepted. -/
def addsOk (l : bufferList) : List (List Nat × String) → Bool
  | [] => true
  | p :: ps =>
    match l.add p.1 p.2 with
    | none => false
    | some l' => addsOk l' ps

/-- Bytes a recovered backend receives when the whole queue is drained. -/
def replayBytes (l : bufferList) : List Nat :=
  writeAll (l.head.map (fun b => writeAll b.bufs))

lemma runAddsL_cons (l : bufferList) (p : List Nat × String)
    (ps : List (List Nat × String)) :
    runAddsL l (p :: ps) = runAddsL (step l (.add p.1 p.2)) ps := rfl

lemma addWalk_fragmentsOf_perm (bs : List batch) (buf : List Nat) (q : String)
    (mb : Nat) (qq : String) :
    List.Perm (fragmentsOf qq (addWalk bs buf q mb))
      (fragmentsOf qq bs ++ if q = qq then [buf] else []) := by
  induction bs with
  | nil =>
    by_cases hq : q = qq
    · simp [addWalk, fragmentsOf, newBatch, hq]
    · simp [addWalk, fragmentsOf, newBatch, hq]
  | cons b rest ih =>
    by_cases hc : b.query = q ∧ b.size + buf.length ≤ mb
    · simp only [addWalk, if_pos hc]
      by_cases hq : q = qq
      · have hbq : b.query = qq := hc.1.trans hq
        simp only [fragmentsOf, hbq, if_pos hq, if_true, eq_self_iff_true]
        rw [List.append_assoc, List.append_assoc]
        exact List.Perm.append_left b.bufs List.perm_append_comm
      · have hbq : ¬ b.query = qq := fun h => hq (hc.1.symm.trans h)
        simp [fragmentsOf, hbq, hq]
    · simp only [addWalk, if_neg hc, fragmentsOf]
      rw [List.append_assoc]
      exact List.Perm.append_left _ ih

lemma runAddsL_fragmentsOf_perm (pairs : List (List Nat × String)) :
    ∀ (l : bufferList) (qq : String), addsOk l pairs = true →
      List.Perm (fragmentsOf qq (runAddsL l pairs).head)
        (fragmentsOf qq l.head ++ addedFor qq pairs) := by
  induction pairs with
  | nil =>
    intro l qq _
    simp [runAddsL, runOps, addedFor]
  | cons p ps ih =>
    intro l qq hok
    rw [runAddsL_cons]
    cases h : l.add p.1 p.2 with
    | none =>
      rw [addsOk, h] at hok
      simp at hok
    | some l' =>
      rw [addsOk, h] at hok
      have hstep : step l (.add p.1 p.2) = l' := by simp [step, h]
      rw [hstep]
      have hhead := (add_eq l p.1 p.2 l' h).1
      have h1 := ih l' qq hok
      have h2 : List.Perm (fragmentsOf qq l'.head)
          (fragmentsOf qq l.head ++ if p.2 = qq then [p.1] else []) := by
        rw [hhead]
        exact addWalk_fragmentsOf_perm l.head p.1 p.2 l.maxBatch qq
      have h3 := h1.trans (h2.append_right (addedFor qq ps))
      rw [List.append_assoc] at h3
      exact h3

lemma addWalk_bufs_sublist (bs : List batch) (buf : List Nat) (q : String)
    (mb : Nat) (g : String → List (List Nat))
    (h : ∀ b ∈ bs, List.Sublist b.bufs (g b.query)) :
    ∀ b' ∈ addWalk bs buf q mb,
      List.Sublist b'.bufs (g b'.query ++ if q = b'.query then [buf] else []) := by
  induction bs with
  | nil =>
    intro b' hb'
    simp [addWalk] at hb'
    subst hb'
    show List.Sublist [buf] (g q ++ if q = q then [buf] else [])
    rw [if_pos rfl]
    exact List.sublist_append_right (g q) [buf]
  | cons b rest ih =>
    intro b' hb'
    by_cases hc : b.query = q ∧ b.size + buf.length ≤ mb
    · simp only [addWalk, if_pos hc] at hb'
      rcases List.mem_cons.mp hb' with hx | hx
      · subst hx
        show List.Sublist (b.bufs ++ [buf]) (g b.query ++ if q = b.query then [buf] else [])
        have hb2 := h b (List.mem_cons_self _ _)
        rw [hc.1] at hb2 ⊢
        rw [if_pos rfl]
        exact hb2.append (List.Sublist.refl [buf])
      · have hs := h b' (List.mem_cons_of_mem _ hx)
        exact hs.trans (List.sublist_append_left _ _)
    · simp only [addWalk, if_neg hc] at hb'
      rcases List.mem_cons.mp hb' with hx | hx
      · subst hx
        exact (h b' (List.mem_cons_self _ _)).trans (List.sublist_append_left _ _)
      · exact ih (fun x hxm => h x (List.mem_cons_of_mem _ hxm)) b' hx

lemma runAddsL_bufs_sublist (pairs : List (List Nat × String)) :
    ∀ (l : bufferList) (g : String → List (List Nat)),
      addsOk l pairs = true →
      (∀ b ∈ l.head, List.Sublist b.bufs (g b.query)) →
      ∀ b ∈ (runAddsL l pairs).head,
        List.Sublist b.bufs (g b.query ++ addedFor b.query pairs) := by
  induction pairs with
  | nil =>
    intro l g _ h b hb
    simpa [addedFor] using h b hb
  | cons p ps ih =>
    intro l g hok h b hb
    rw [runAddsL_cons] at hb
    cases hadd : l.add p.1 p.2 with
    | none =>
      rw [addsOk, hadd] at hok
      simp at hok
    | some l' =>
      rw [addsOk, hadd] at hok
      have hstep : step l (.add p.1 p.2) = l' := by simp [step, hadd]
      rw [hstep] at hb
      have hhead := (add_eq l p.1 p.2 l' hadd).1
      have hinv : ∀ x ∈ l'.head,
          List.Sublist x.bufs (g x.query ++ if p.2 = x.query then [p.1] else []) := by
        rw [hhead]
        exact addWalk_bufs_sublist l.head p.1 p.2 l.maxBatch g h
      have hrec := ih l' (fun s => g s ++ if p.2 = s then [p.1] else []) hok hinv b hb
      rw [List.append_assoc] at hrec
      have hunf : addedFor b.query (p :: ps) =
          (if p.2 = b.query then [p.1] else []) ++ addedFor b.query ps := rfl
      rw [hunf]
      exact hrec

lemma addWalk_pos (bs : List batch) (buf : List Nat) (q : String) (mb : Nat)
    (hb : 0 < buf.length) (h : ∀ b ∈ bs, 0 < b.size) :
    ∀ b ∈ addWalk bs buf q mb, 0 < b.size := by
  intro b hmem
  rcases addWalk_mem_cases bs buf q mb b hmem with h1 | h2 | ⟨b0, _, _, _, heq⟩
  · exact h b h1
  · rw [h2]; simpa [newBatch] using hb
  · rw [heq]; simp; omega

lemma runAddsL_pos (pairs : List (List Nat × String)) :
    ∀ l : bufferList, (∀ b ∈ l.head, 0 < b.size) →
      (∀ p ∈ pairs, 0 < p.1.length) →
      ∀ b ∈ (runAddsL l pairs).head, 0 < b.size := by
  induction pairs with
  | nil => intro l h _; exact h
  | cons p ps ih =>
    intro l h hne
    rw [runAddsL_cons]
    cases hadd : l.add p.1 p.2 with
    | none =>
      have hstep : step l (.add p.1 p.2) = l := by simp [step, hadd]
      rw [hstep]
      exact ih l h (fun x hx => hne x (List.mem_cons_of_mem _ hx))
    | some l' =>
      have hstep : step l (.add p.1 p.2) = l' := by simp [step, hadd]
      rw [hstep]
      have hhead := (add_eq l p.1 p.2 l' hadd).1
      refine ih l' ?_ (fun x hx => hne x (List.mem_cons_of_mem _ hx))
      rw [hhead]
      exact addWalk_pos l.head p.1 p.2 l.maxBatch
        (hne p (List.mem_cons_self _ _)) h

lemma drainAll_spec (bs : List batch) :
    ∀ l : bufferList, l.head = bs → l.size = totalSize bs →
      (∀ b ∈ bs, 0 < b.size) →
      drainAll bs.length l = bs.map (fun b => (b.query, writeAll b.bufs)) := by
  induction bs with
  | nil => intro l _ _ _; rfl
  | cons b rest ih =>
    intro l hh hs hpos
    have hbpos : 0 < b.size := hpos b (List.mem_cons_self _ _)
    have hsz : l.size ≠ 0 := by
      rw [hs, totalSize]; omega
    have hpop : l.pop = some (b, { l with head := rest, size := l.size - b.size }) := by
      unfold bufferList.pop
      rw [if_neg hsz, hh]
    show drainAll (rest.length + 1) l = _
    rw [drainAll, hpop]
    simp only [List.map_cons, List.cons.injEq, true_and]
    refine ih _ rfl ?_ (fun x hx => hpos x (List.mem_cons_of_mem _ hx))
    simp only
    rw [hs, totalSize]
    omega

/-- C5 counterexample: with `max-batch-size = 10`, submitting same-query
bodies of 8, 5 and 2 bytes makes the third body coalesce into the *first*
batch (8+2 ≤ 10) although the second body already sits in a later batch,
so draining replays the bytes in a different order than direct posts
would have delivered them — even though every add succeeded. -/
theorem retryBuffer_replay_order_cx :
    addsOk (newBufferList 100 10)
      [([1, 1, 1, 1, 1, 1, 1, 1], "q"), ([2, 2, 2, 2, 2], "q"), ([3, 3], "q")] = true ∧
    replayBytes (runAddsL (newBufferList 100 10)
      [([1, 1, 1, 1, 1, 1, 1, 1], "q"), ([2, 2, 2, 2, 2], "q"), ([3, 3], "q")]) ≠
    writeAll
      ([([1, 1, 1, 1, 1, 1, 1, 1], "q"), ([2, 2, 2, 2, 2], "q"), ([3, 3], "q")].map
        Prod.fst) := by
  decide

/-- C5 (amended): every body coalesced into a batch was submitted with
that batch's query descriptor and batches keep their bodies in append
order (each batch's fragment list is a subsequence of the same-query
submission sequence); the drainer pops batches oldest-first and posts the
exact concatenation of each batch's fragments; per query, replay delivers
the same multiset of bodies as direct posts — but replay order may differ
from submission order when a later body coalesces into an earlier batch
that still has room. -/
theorem retryBuffer_coalescing_amended (cap mb : Nat)
    (pairs : List (List Nat × String))
    (hok : addsOk (newBufferList cap mb) pairs = true)
    (hne : ∀ p ∈ pairs, 0 < p.1.length) :
    drainAll (runAddsL (newBufferList cap mb) pairs).head.length
        (runAddsL (newBufferList cap mb) pairs) =
      (runAddsL (newBufferList cap mb) pairs).head.map
        (fun b => (b.query, writeAll b.bufs)) ∧
    (∀ qq, List.Perm
      (fragmentsOf qq (runAddsL (newBufferList cap mb) pairs).head)
      (addedFor qq pairs)) ∧
    (∀ b ∈ (runAddsL (newBufferList cap mb) pairs).head,
      List.Sublist b.bufs (addedFor b.query pairs)) := by
  have hWF0 := newBufferList_WF cap mb
  have hWF := (runOps_WF (newBufferList cap mb)
    (pairs.map (fun p => Op.add p.1 p.2)) hWF0).1
  refine ⟨?_, ?_, ?_⟩
  · exact drainAll_spec _ _ rfl hWF.1
      (runAddsL_pos pairs (newBufferList cap mb)
        (by intro b hb; simp [newBufferList] at hb) hne)
  · intro qq
    have h := runAddsL_fragmentsOf_perm pairs (newBufferList cap mb) qq hok
    simpa [newBufferList, fragmentsOf] using h
  · intro b hb
    have h := runAddsL_bufs_sublist pairs (newBufferList cap mb)
      (fun _ => []) hok (by intro x hx; simp [newBufferList] at hx) b hb
    simpa using h

/-- Witness for C5 (amended): two one-byte same-query bodies; the queued
fragments for that query are a permutation of the submitted bodies. -/
theorem retryBuffer_coalescing_amended_witness :
    List.Perm
      (fragmentsOf "a" (runAddsL (newBufferList 100 10) [([1], "a"), ([2], "a")]).head)
      (addedFor "a" [([1], "a"), ([2], "a")]) :=
  (retryBuffer_coalescing_amended 100 10 [([1], "a"), ([2], "a")]
    (by decide) (by decide)).2.1 "a"

/-- Return value of `retryBuffer.Post`: a response with `nil` error, or
`ErrBufferFull` with `nil` response. -/
inductive postReturn where
  | ok : responseData → postReturn
  | errBufferFull : postReturn
deriving DecidableEq, Repr

/-- The failure continuation of `retryBuffer.Post` (retry.go lines 59-66):
the flag is (or stays) set, the body is offered to the queue; buffer-full
surfaces immediately, otherwise the caller waits and gets the batch's
stored response (`batchResp`). -/
def retryBufferPostBuffered (l : bufferList) (buf : List Nat) (q : String)
    (batchResp : responseData) : postReturn × Bool × bufferList :=
  match l.add buf q with
  | none => (.errBufferFull, true, l)
  | some l' => (.ok batchResp, true, l')

/-- Model of `retryBuffer.Post` (retry.go lines 49-67).  `buffering` is
the flag read at entry; `direct` is what the single direct post would
return (`none` = transport error); `batchResp` is the response the
drainer will have stored on the batch when the waiter group releases. -/
def retryBufferPost (buffering : Bool) (direct : Option responseData)
    (l : bufferList) (buf : List Nat) (q : String) (batchResp : responseData) :
    postReturn × Bool × bufferList :=
  if buffering = false then
    match direct with
    | some r =>
      if r.StatusCode / 100 ≠ 5 then (.ok r, false, l)
      else retryBufferPostBuffered l buf q batchResp
    | none => retryBufferPostBuffered l buf q batchResp
  else retryBufferPostBuffered l buf q batchResp

/-- C2: Submit semantics of `retryBuffer.Post`.  With the flag clear, a
direct post that returns without transport error and non-5xx is returned
as-is, leaving flag and queue untouched; in every other case the flag is
set and the body goes through `add` — buffer-full is surfaced immediately
with no response and no queue change, otherwise the caller blocks and
returns the response stored on the batch, with the queue updated by the
add. -/
theorem retryBuffer_Post_semantics (buffering : Bool)
    (direct : Option responseData) (l : bufferList) (buf : List Nat)
    (q : String) (batchResp : responseData) :
    (∀ r, buffering = false → direct = some r → r.StatusCode / 100 ≠ 5 →
      retryBufferPost buffering direct l buf q batchResp = (.ok r, false, l)) ∧
    ((buffering = true ∨ direct = none ∨
        (∃ r, direct = some r ∧ r.StatusCode / 100 = 5)) →
      (l.add buf q = none →
        retryBufferPost buffering direct l buf q batchResp =
          (.errBufferFull, true, l)) ∧
      (∀ l', l.add buf q = some l' →
        retryBufferPost buffering direct l buf q batchResp =
          (.ok batchResp, true, l'))) := by
  constructor
  · intro r hb hd h5
    subst hb
    subst hd
    simp [retryBufferPost, h5]
  · intro hfail
    constructor
    · intro hadd
      rcases hfail with hb | hd | ⟨r, hd, h5⟩
      · subst hb
        simp [retryBufferPost, retryBufferPostBuffered, hadd]
      · subst hd
        cases buffering <;>
          simp [retryBufferPost, retryBufferPostBuffered, hadd]
      · subst hd
        cases buffering <;>
          simp [retryBufferPost, retryBufferPostBuffered, hadd, h5]
    · intro l' hadd
      rcases hfail with hb | hd | ⟨r, hd, h5⟩
      · subst hb
        simp [retryBufferPost, retryBufferPostBuffered, hadd]
      · subst hd
        cases buffering <;>
          simp [retryBufferPost, retryBufferPostBuffered, hadd]
      · subst hd
        cases buffering <;>
          simp [retryBufferPost, retryBufferPostBuffered, hadd, h5]

/-- Witness for C2: with the flag clear and a direct 204, the response is
returned directly; with a direct 500 into a zero-capacity queue,
buffer-full surfaces. -/
theorem retryBuffer_Post_semantics_witness :
    retryBufferPost false (some ⟨"", "", 204, []⟩) (newBufferList 10 10) [1] "q"
        ⟨"", "", 204, []⟩ = (.ok ⟨"", "", 204, []⟩, false, newBufferList 10 10) ∧
    retryBufferPost false (some ⟨"", "", 500, []⟩) (newBufferList 0 10) [1] "q"
        ⟨"", "", 204, []⟩ = (.errBufferFull, true, newBufferList 0 10) := by
  constructor
  · exact (retryBuffer_Post_semantics false (some ⟨"", "", 204, []⟩)
      (newBufferList 10 10) [1] "q" ⟨"", "", 204, []⟩).1
      ⟨"", "", 204, []⟩ rfl rfl (by decide)
  · exact ((retryBuffer_Post_semantics false (some ⟨"", "", 500, []⟩)
      (newBufferList 0 10) [1] "q" ⟨"", "", 204, []⟩).2
      (Or.inr (Or.inr ⟨⟨"", "", 500, []⟩, rfl, by decide⟩))).1 (by decide)

/-- Go constant `retryInitial = 500 * time.Millisecond`, in ms. -/
def retryInitial : Nat := 500

/-- Go constant `retryMultiplier = 2`. -/
def retryMultiplier : Nat := 2

/-- The interval update in `retryBuffer.run` (retry.go lines 89-94): if
the interval has not reached `maxInterval`, multiply it and clamp. -/
def nextInterval (maxI iv : Nat) : Nat :=
  if iv ≠ maxI then
    (if iv * retryMultiplier > maxI then maxI else iv * retryMultiplier)
  else iv

/-- The duration slept after the (k+1)-th failed attempt on a batch: the
code multiplies the interval *before* the first sleep. -/
def sleepAfter (maxI : Nat) : Nat → Nat
  | 0 => nextInterval maxI retryInitial
  | k + 1 => nextInterval maxI (sleepAfter maxI k)

/-- A drain attempt succeeds when it returned a response (no transport
error) whose status is not 5xx. -/
def drainSuccess : Option responseData → Bool
  | some r => r.StatusCode / 100 != 5
  | none => false

/-- The inner retry loop of `retryBuffer.run` over a list of attempt
outcomes: returns the first successful response together with the sleeps
performed before it, or `none` if every listed attempt failed (the loop
is still running). -/
def attemptLoop (maxI iv : Nat) :
    List (Option responseData) → Option (responseData × List Nat)
  | [] => none
  | o :: rest =>
    match o with
    | some r =>
      if r.StatusCode / 100 ≠ 5 then some (r, [])
      else (attemptLoop maxI (nextInterval maxI iv) rest).map
        (fun p => (p.1, nextInterval maxI iv :: p.2))
    | none => (attemptLoop maxI (nextInterval maxI iv) rest).map
        (fun p => (p.1, nextInterval maxI iv :: p.2))

/-- The outer loop of `retryBuffer.run`, one entry per popped batch: the
interval is re-initialized to `retryInitial` for every batch. -/
def drainBatches (maxI : Nat) :
    List (List (Option responseData)) → List (Option (responseData × List Nat))
  | [] => []
  | b :: bs => attemptLoop maxI retryInitial b :: drainBatches maxI bs

/-- The sleep sequence produced from a starting interval over `n`
failures. -/
def schedFrom (maxI : Nat) : Nat → Nat → List Nat
  | _, 0 => []
  | iv, n + 1 => nextInterval maxI iv :: schedFrom maxI (nextInterval maxI iv) n

lemma nextInterval_eq (maxI iv : Nat) :
    nextInterval maxI iv = if iv = maxI then iv else min (iv * 2) maxI := by
  unfold nextInterval retryMultiplier
  by_cases h : iv = maxI
  · simp [h]
  · rw [if_pos h, if_neg h]
    rcases Nat.lt_or_ge maxI (iv * 2) with hlt | hge
    · rw [if_pos hlt, Nat.min_eq_right (Nat.le_of_lt hlt)]
    · rw [if_neg (Nat.not_lt.mpr hge), Nat.min_eq_left hge]

lemma nextInterval_min (maxI a : Nat) :
    nextInterval maxI (min a maxI) = min (a * 2) maxI := by
  rw [nextInterval_eq]
  rcases Nat.le_total a maxI with h | h
  · rw [Nat.min_eq_left h]
    by_cases heq : a = maxI
    · subst heq
      rw [if_pos rfl, Nat.min_eq_right (by omega)]
    · rw [if_neg heq]
  · rw [Nat.min_eq_right h, if_pos rfl, Nat.min_eq_right (by omega)]

lemma sleepAfter_closed (maxI : Nat) :
    ∀ k, sleepAfter maxI k = min (retryInitial * retryMultiplier ^ (k + 1)) maxI := by
  intro k
  induction k with
  | zero =>
    show nextInterval maxI retryInitial = _
    rw [nextInterval_eq]
    by_cases h : retryInitial = maxI
    · subst h
      rw [if_pos rfl]
      unfold retryInitial retryMultiplier
      rw [Nat.min_eq_right (by norm_num)]
    · rw [if_neg h]
      unfold retryInitial retryMultiplier
      norm_num
  | succ k ih =>
    show nextInterval maxI (sleepAfter maxI k) = _
    rw [ih, nextInterval_min]
    congr 1
    unfold retryInitial retryMultiplier
    ring

lemma attemptLoop_spec (maxI : Nat) :
    ∀ (fails : List (Option responseData)) (iv : Nat) (r : responseData),
      (∀ o ∈ fails, drainSuccess o = false) → drainSuccess (some r) = true →
      attemptLoop maxI iv (fails ++ [some r]) =
        some (r, schedFrom maxI iv fails.length) := by
  intro fails
  induction fails with
  | nil =>
    intro iv r _ hsucc
    have h5 : r.StatusCode / 100 ≠ 5 := by
      simpa [drainSuccess] using hsucc
    simp [attemptLoop, h5, schedFrom]
  | cons o fails ih =>
    intro iv r hfail hsucc
    have ho := hfail o (List.mem_cons_self _ _)
    have hrec := ih (nextInterval maxI iv) r
      (fun x hx => hfail x (List.mem_cons_of_mem _ hx)) hsucc
    cases o with
    | none =>
      simp only [List.cons_append, attemptLoop]
      have hA : fails.append [some r] = fails ++ [some r] := rfl
      rw [hA, hrec]
      rfl
    | some r0 =>
      have h50 : r0.StatusCode / 100 = 5 := by
        simpa [drainSuccess] using ho
      simp only [List.cons_append, attemptLoop, h50, ne_eq,
        not_true_eq_false, if_false]
      have hA : fails.append [some r] = fails ++ [some r] := rfl
      rw [hA, hrec]
      rfl

lemma attemptLoop_all_fail (maxI : Nat) :
    ∀ (outs : List (Option responseData)) (iv : Nat),
      (∀ o ∈ outs, drainSuccess o = false) → attemptLoop maxI iv outs = none := by
  intro outs
  induction outs with
  | nil => intro iv _; rfl
  | cons o rest ih =>
    intro iv hfail
    have ho := hfail o (List.mem_cons_self _ _)
    have hrec := ih (nextInterval maxI iv)
      (fun x hx => hfail x (List.mem_cons_of_mem _ hx))
    cases o with
    | none => simp [attemptLoop, hrec]
    | some r0 =>
      have h50 : r0.StatusCode / 100 = 5 := by
        simpa [drainSuccess] using ho
      simp [attemptLoop, h50, hrec]

lemma schedFrom_shift (maxI : Nat) :
    ∀ (n k : Nat),
      schedFrom maxI (sleepAfter maxI k) n =
        (List.range n).map (fun i => sleepAfter maxI (k + 1 + i)) := by
  intro n
  induction n with
  | zero => intro k; rfl
  | succ n ih =>
    intro k
    have hstep : nextInterval maxI (sleepAfter maxI k) = sleepAfter maxI (k + 1) := rfl
    rw [schedFrom, hstep, ih (k + 1)]
    rw [List.range_succ_eq_map, List.map_cons, List.map_map]
    congr 1
    apply List.map_congr_left
    intro a _
    show sleepAfter maxI (k + 1 + 1 + a) = sleepAfter maxI (k + 1 + (a + 1))
    exact congrArg (sleepAfter maxI) (by omega)

lemma schedFrom_sleepAfter (maxI : Nat) (n : Nat) :
    schedFrom maxI retryInitial n = (List.range n).map (sleepAfter maxI) := by
  cases n with
  | zero => rfl
  | succ n =>
    have hstep : nextInterval maxI retryInitial = sleepAfter maxI 0 := rfl
    rw [schedFrom, hstep, schedFrom_shift maxI n 0]
    rw [List.range_succ_eq_map, List.map_cons, List.map_map]
    congr 1
    apply List.map_congr_left
    intro a _
    show sleepAfter maxI (0 + 1 + a) = sleepAfter maxI (a + 1)
    exact congrArg (sleepAfter maxI) (by omega)

/-- C6 counterexample: `retryBuffer.run` multiplies the interval *before*
the first sleep, so with the default `max-interval` of 10 s (10000 ms)
the sleep before the retry after the first failed attempt is 1000 ms, not
the initial 500 ms; a batch failing once (transport error) and then
succeeding sleeps exactly [1000]. -/
theorem retryBuffer_backoff_cx :
    sleepAfter 10000 0 = 1000 ∧ sleepAfter 10000 0 ≠ retryInitial ∧
    attemptLoop 10000 retryInitial [none, some ⟨"", "", 204, []⟩] =
      some (⟨"", "", 204, []⟩, [1000]) := by
  decide

/-- C6 (amended): for each batch the interval starts at 500 ms but is
doubled and clamped to `max-interval` before every sleep including the
first, so the sleep after the (k+1)-th failed attempt is
`min(500·2^(k+1) ms, max-interval)` — in particular the first sleep is
`min(1000 ms, max-interval)`, which equals 500 ms only when
`max-interval` is 500 ms; the drainer retries the same batch until a
non-5xx, non-transport-error response, and the schedule restarts at the
initial interval for every new batch. -/
theorem retryBuffer_backoff_amended (maxI : Nat) :
    (∀ k, sleepAfter maxI k = min (retryInitial * retryMultiplier ^ (k + 1)) maxI) ∧
    (∀ (fails : List (Option responseData)) (r : responseData),
      (∀ o ∈ fails, drainSuccess o = false) → drainSuccess (some r) = true →
      attemptLoop maxI retryInitial (fails ++ [some r]) =
        some (r, (List.range fails.length).map (sleepAfter maxI))) ∧
    (∀ outs : List (Option responseData),
      (∀ o ∈ outs, drainSuccess o = false) →
        attemptLoop maxI retryInitial outs = none) ∧
    (∀ b bs, drainBatches maxI (b :: bs) =
      attemptLoop maxI retryInitial b :: drainBatches maxI bs) := by
  refine ⟨sleepAfter_closed maxI, ?_, ?_, fun b bs => rfl⟩
  · intro fails r hfail hsucc
    rw [attemptLoop_spec maxI fails retryInitial r hfail hsucc,
      schedFrom_sleepAfter]
  · intro outs hfail
    exact attemptLoop_all_fail maxI outs retryInitial hfail

/-- Witness for C6 (amended): one failed attempt then a 204 with
`max-interval` 10000 ms sleeps exactly the scheduled [1000]. -/
theorem retryBuffer_backoff_amended_witness :
    attemptLoop 10000 retryInitial ([none] ++ [some ⟨"", "", 204, []⟩]) =
      some (⟨"", "", 204, []⟩, (List.range 1).map (sleepAfter 10000)) :=
  (retryBuffer_backoff_amended 10000).2.1 [none] ⟨"", "", 204, []⟩
    (by decide) (by decide)

/-- A backend HTTP response as the Go client sees it: canonicalized
header/value pairs, status and body. -/
structure backendResp where
  headers : List (String × String)
  StatusCode : Nat
  Body : List Nat
deriving DecidableEq, Repr

/-- Go `resp.Header.Get(key)`: first value for the (canonical) key, `""`
when absent. -/
def headerGet (hs : List (String × String)) (k : String) : String :=
  match hs.find? (fun p => p.1 == k) with
  | some p => p.2
  | none => ""

/-- The `responseData` built by `simplePoster.post` (http.go lines
86-91).  The source reads the headers `"Conent-Type"` and
`"Conent-Encoding"` — misspelled, hence distinct from the headers the
backend actually sets. -/
def simplePosterRecord (resp : backendResp) : responseData :=
  { ContentType := headerGet resp.headers "Conent-Type"
    ContentEncoding := headerGet resp.headers "Conent-Encoding"
    StatusCode := resp.StatusCode
    Body := resp.Body }

/-- What `responseData.Write` leaves on the client connection. -/
structure writtenResponse where
  headers : List (String × String)
  status : Nat
  body : List Nat
deriving DecidableEq, Repr

/-- Model of `responseData.Write` (http.go lines 384-396): set
Content-Type and Content-Encoding only when non-empty, always set
Content-Length, then status and body. -/
def responseDataWrite (rd : responseData) : writtenResponse :=
  { headers :=
      (if rd.ContentType ≠ "" then [("Content-Type", rd.ContentType)] else []) ++
      (if rd.ContentEncoding ≠ "" then [("Content-Encoding", rd.ContentEncoding)] else []) ++
      [("Content-Length", toString rd.Body.length)]
    status := rd.StatusCode
    body := rd.Body }

/-- A concrete backend 400 response carrying content headers. -/
def sampleBackend400 : backendResp :=
  { headers := [("Content-Type", "application/json"), ("Content-Encoding", "gzip")]
    StatusCode := 400
    Body := [97] }

/-- C7 evidence: `simplePoster.post` reads the misspelled headers
`Conent-Type`/`Conent-Encoding`, so for a backend 400 that does set
`Content-Type: application/json` and `Content-Encoding: gzip` the record
captures empty strings, and the forwarded response carries neither
header — only status, body and Content-Length survive. -/
theorem simplePoster_header_capture_bug :
    (simplePosterRecord sampleBackend400).ContentType = "" ∧
    (simplePosterRecord sampleBackend400).ContentEncoding = "" ∧
    headerGet sampleBackend400.headers "Content-Type" = "application/json" ∧
    headerGet sampleBackend400.headers "Content-Encoding" = "gzip" ∧
    responseDataWrite (simplePosterRecord sampleBackend400) =
      { headers := [("Content-Length", "1")], status := 400, body := [97] } := by
  refine ⟨rfl, rfl, rfl, rfl, ?_⟩
  rfl

/-- The write events of `ServeHTTP` modelled as status/body pairs. -/
def jsonErrorW (code : Nat) (message : String) : Nat × String :=
  (code, "\x7b\"error\":\"" ++ message ++ "\"\x7d\n")

/-- How the handler leaves the request: a normal `return`, a nil-pointer
dereference of the failed gzip reader, or dispatch to the backends. -/
inductive served where
  | returned : served
  | nilReaderPanic : served
  | dispatched : served
deriving DecidableEq, Repr

/-- An abstract `/write` request.  `gzipOk`, `readOk`, `parseOk` and
`serializeOk` are oracles for the gzip library, body read, point parser
and re-serialization loop. -/
structure httpRequest where
  path : String
  method : String
  db : String
  rp : String
  contentEncoding : String
  gzipOk : Bool
  readOk : Bool
  parseOk : Bool
  serializeOk : Bool
deriving DecidableEq, Repr

/-- Control flow of `ServeHTTP` (http.go lines 218-313) up to the
fan-out: the responses written, and how the handler leaves.  The gzip
branch mirrors the source exactly: on a gzip error `jsonError` is written
but there is no `return`, `body` becomes the nil reader returned by
`gzip.NewReader`, and the subsequent `ReadFrom` dereferences it. -/
def serveHTTPWrites (r : httpRequest) : List (Nat × String) × served :=
  if r.path = "/ping" ∧ (r.method = "GET" ∨ r.method = "HEAD") then
    ([(204, "")], .returned)
  else if r.path ≠ "/write" then
    ([jsonErrorW 404 "invalid write endpoint"], .returned)
  else if r.method ≠ "POST" then
    if r.method = "OPTIONS" then ([(204, "")], .returned)
    else ([jsonErrorW 405 "invalid write method"], .returned)
  else if r.db = "" then
    ([jsonErrorW 400 "missing parameter: db"], .returned)
  else if r.contentEncoding = "gzip" ∧ r.gzipOk = false then
    ([jsonErrorW 400 "unable to decode gzip body"], .nilReaderPanic)
  else if r.readOk = false then
    ([jsonErrorW 500 "problem reading request body"], .returned)
  else if r.parseOk = false then
    ([jsonErrorW 400 "unable to parse points"], .returned)
  else if r.serializeOk = false then
    ([jsonErrorW 500 "problem writing points"], .returned)
  else ([], .dispatched)

/-- C9 evidence: a POST /write with `Content-Encoding: gzip` and an
undecodable body gets the 400 written, but the handler does not return —
it goes on to read the nil gzip reader (a panic), instead of the claimed
single-response-and-stop behaviour. -/
theorem serveHTTP_gzip_missing_return :
    serveHTTPWrites ⟨"/write", "POST", "mydb", "", "gzip", false, true, true, true⟩ =
      ([jsonErrorW 400 "unable to decode gzip body"], .nilReaderPanic) ∧
    (serveHTTPWrites
      ⟨"/write", "POST", "mydb", "", "gzip", false, true, true, true⟩).2 ≠
      served.returned := by
  refine ⟨rfl, ?_⟩
  decide

/-- Combined state of one backend's retry machinery: the atomic
`buffering` flag, the queue, and the batch the drainer popped and is
still retrying (`holding`). -/
structure RelayState where
  buffering : Bool
  list : bufferList
  holding : Option batch
deriving DecidableEq, Repr

/-- Atomic steps of `retryBuffer.Post` and `retryBuffer.run`:
`postDirectOk` is a direct post succeeding with the flag clear;
`postFail` is a direct post failing (transport error or 5xx), which sets
the flag and enqueues; `postBuffered` is a Post that saw the flag set and
enqueues straight away; `drainPop`/`drainRetryFail`/`drainOk` are the
drainer popping the head batch, failing an attempt, and completing a
batch (storing the response, clearing the flag, releasing the waiters). -/
inductive Event where
  | postDirectOk : Event
  | postFail : List Nat → String → Event
  | postBuffered : List Nat → String → Event
  | drainPop : Event
  | drainRetryFail : Event
  | drainOk : Event
deriving DecidableEq, Repr

/-- One step of the interleaved system; an event whose guard does not
hold leaves the state unchanged. -/
def stepR (s : RelayState) : Event → RelayState
  | .postDirectOk => s
  | .postFail buf q =>
    if s.buffering then s
    else
      match s.list.add buf q with
      | some l' => { s with buffering := true, list := l' }
      | none => { s with buffering := true }
  | .postBuffered buf q =>
    if s.buffering then
      match s.list.add buf q with
      | some l' => { s with list := l' }
      | none => s
    else s
  | .drainPop =>
    match s.holding with
    | some _ => s
    | none =>
      match s.list.pop with
      | some (b, l') => { s with list := l', holding := some b }
      | none => s
  | .drainRetryFail => s
  | .drainOk =>
    match s.holding with
    | some _ => { s with buffering := false, holding := none }
    | none => s

/-- Run a sequence of interleaved events. -/
def runR (s : RelayState) (evs : List Event) : RelayState :=
  evs.foldl stepR s

/-- Fresh backend state: flag clear, empty queue, drainer blocked. -/
def initR (cap mb : Nat) : RelayState :=
  { buffering := false, list := newBufferList cap mb, holding := none }

/-- Bytes held by the drainer's in-flight batch. -/
def heldSize (s : RelayState) : Nat :=
  match s.holding with
  | some b => b.size
  | none => 0

lemma stepR_buffering_postBuffered (s : RelayState) (buf : List Nat) (q : String) :
    (stepR s (.postBuffered buf q)).buffering = s.buffering := by
  cases hb : s.buffering with
  | false => simp [stepR, hb]
  | true =>
    cases h : s.list.add buf q with
    | none => simp [stepR, hb, h]
    | some l' => simp [stepR, hb, h]

lemma stepR_buffering_drainPop (s : RelayState) :
    (stepR s .drainPop).buffering = s.buffering := by
  cases hh : s.holding with
  | some b => simp [stepR, hh]
  | none =>
    cases hp : s.list.pop with
    | none => simp [stepR, hh, hp]
    | some p => simp [stepR, hh, hp]

lemma stepR_buffering_postFail (s : RelayState) (buf : List Nat) (q : String)
    (hb : s.buffering = false) :
    (stepR s (.postFail buf q)).buffering = true := by
  cases h : s.list.add buf q with
  | none => simp [stepR, hb, h]
  | some l' => simp [stepR, hb, h]

lemma stepR_buffering_drainOk (s : RelayState) (b : batch)
    (hh : s.holding = some b) :
    (stepR s .drainOk).buffering = false := by
  simp [stepR, hh]

/-- C8 counterexample: enqueue under failure, enqueue a second batch,
pop the first, drain it successfully — the flag is cleared while the
second batch still sits in the queue, so a non-empty queue with a clear
buffering flag is reachable. -/
theorem bufferingFlag_invariant_cx :
    (runR (initR 100 10)
      [.postFail [1] "a", .postBuffered [2] "b", .drainPop, .drainOk]).buffering
      = false ∧
    (runR (initR 100 10)
      [.postFail [1] "a", .postBuffered [2] "b", .drainPop, .drainOk]).list.head
      ≠ [] := by
  decide

/-- C8 (amended): the flag moves from clear to set only through a Post
whose direct post failed (transport error or 5xx) — such a step always
sets it — and from set to clear only through the drainer completing a
batch; between that completion and the drainer's next pop the queue may
be non-empty while the flag is clear, so the claimed state invariant
holds only outside that window. -/
theorem bufferingFlag_amended (s : RelayState) (e : Event) :
    ((stepR s e).buffering = true → s.buffering = false →
      ∃ buf q, e = Event.postFail buf q) ∧
    ((stepR s e).buffering = false → s.buffering = true →
      e = Event.drainOk) ∧
    (∀ buf q, s.buffering = false →
      (stepR s (.postFail buf q)).buffering = true) ∧
    (∀ b, s.holding = some b → (stepR s .drainOk).buffering = false) := by
  refine ⟨?_, ?_, ?_, ?_⟩
  · intro h1 h2
    cases e with
    | postDirectOk => rw [show stepR s .postDirectOk = s from rfl] at h1; simp_all
    | postFail buf q => exact ⟨buf, q, rfl⟩
    | postBuffered buf q => rw [stepR_buffering_postBuffered] at h1; simp_all
    | drainPop => rw [stepR_buffering_drainPop] at h1; simp_all
    | drainRetryFail => rw [show stepR s .drainRetryFail = s from rfl] at h1; simp_all
    | drainOk =>
      cases hh : s.holding with
      | some b => rw [stepR_buffering_drainOk s b hh] at h1; simp_all
      | none => rw [show stepR s .drainOk = s from by simp [stepR, hh]] at h1; simp_all
  · intro h1 h2
    cases e with
    | postDirectOk => rw [show stepR s .postDirectOk = s from rfl] at h1; simp_all
    | postFail buf q =>
      rw [stepR_buffering_postFail s buf q] at h1
      · simp_all
      · cases hb : s.buffering with
        | false => rfl
        | true => rw [hb] at h2; rw [show stepR s (.postFail buf q) = s from by
            simp [stepR, hb]] at h1; simp_all
    | postBuffered buf q => rw [stepR_buffering_postBuffered] at h1; simp_all
    | drainPop => rw [stepR_buffering_drainPop] at h1; simp_all
    | drainRetryFail => rw [show stepR s .drainRetryFail = s from rfl] at h1; simp_all
    | drainOk => rfl
  · intro buf q hb
    exact stepR_buffering_postFail s buf q hb
  · intro b hh
    exact stepR_buffering_drainOk s b hh

/-- Witness for C8 (amended) at a concrete state: a failing direct post
sets the clear flag. -/
theorem bufferingFlag_amended_witness :
    (stepR (initR 10 10) (.postFail [1] "a")).buffering = true :=
  (bufferingFlag_amended (initR 10 10) (.postFail [1] "a")).2.2.1 [1] "a" rfl

lemma stepR_list_WF (s : RelayState) (e : Event) (h : listWF s.list) :
    listWF (stepR s e).list ∧ (stepR s e).list.maxSize = s.list.maxSize := by
  cases e with
  | postDirectOk => exact ⟨h, rfl⟩
  | postFail buf q =>
    cases hb : s.buffering with
    | true =>
      have hs : stepR s (.postFail buf q) = s := by simp [stepR, hb]
      rw [hs]; exact ⟨h, rfl⟩
    | false =>
      cases hadd : s.list.add buf q with
      | none =>
        have hs : (stepR s (.postFail buf q)).list = s.list := by
          simp [stepR, hb, hadd]
        rw [hs]; exact ⟨h, rfl⟩
      | some l' =>
        obtain ⟨h1, h2, _, _⟩ := add_WF s.list buf q l' h hadd
        have hs : (stepR s (.postFail buf q)).list = l' := by
          simp [stepR, hb, hadd]
        rw [hs]; exact ⟨h1, h2⟩
  | postBuffered buf q =>
    cases hb : s.buffering with
    | false =>
      have hs : stepR s (.postBuffered buf q) = s := by simp [stepR, hb]
      rw [hs]; exact ⟨h, rfl⟩
    | true =>
      cases hadd : s.list.add buf q with
      | none =>
        have hs : stepR s (.postBuffered buf q) = s := by simp [stepR, hb, hadd]
        rw [hs]; exact ⟨h, rfl⟩
      | some l' =>
        obtain ⟨h1, h2, _, _⟩ := add_WF s.list buf q l' h hadd
        have hs : (stepR s (.postBuffered buf q)).list = l' := by
          simp [stepR, hb, hadd]
        rw [hs]; exact ⟨h1, h2⟩
  | drainPop =>
    cases hh : s.holding with
    | some b =>
      have hs : stepR s .drainPop = s := by simp [stepR, hh]
      rw [hs]; exact ⟨h, rfl⟩
    | none =>
      cases hp : s.list.pop with
      | none =>
        have hs : stepR s .drainPop = s := by simp [stepR, hh, hp]
        rw [hs]; exact ⟨h, rfl⟩
      | some p =>
        obtain ⟨h1, h2', _, _⟩ := pop_WF s.list p.1 p.2 h (by rw [hp])
        have hs : (stepR s .drainPop).list = p.2 := by
          simp [stepR, hh, hp]
        rw [hs]; exact ⟨h1, h2'⟩
  | drainRetryFail => exact ⟨h, rfl⟩
  | drainOk =>
    cases hh : s.holding with
    | some b =>
      have hs : (stepR s .drainOk).list = s.list := by simp [stepR, hh]
      rw [hs]; exact ⟨h, rfl⟩
    | none =>
      have hs : stepR s .drainOk = s := by simp [stepR, hh]
      rw [hs]; exact ⟨h, rfl⟩

lemma runR_list_WF (s : RelayState) (evs : List Event) (h : listWF s.list) :
    listWF (runR s evs).list ∧ (runR s evs).list.maxSize = s.list.maxSize := by
  induction evs generalizing s with
  | nil => exact ⟨h, rfl⟩
  | cons e rest ih =>
    obtain ⟨h1, h2⟩ := stepR_list_WF s e h
    obtain ⟨g1, g2⟩ := ih (stepR s e) h1
    exact ⟨g1, g2.trans h2⟩

/-- C10: `pop` subtracts the popped batch's size from the tracked total
immediately, before the batch is delivered; the queue alone always stays
within capacity, so while the drainer holds a popped batch the accepted
but undelivered bytes (queued plus in-drain) are bounded by capacity plus
the held batch's size — and that bound is attained: with capacity 10, a
10-byte batch can be popped and a further 10-byte body accepted, giving
20 undelivered bytes. -/
theorem retryQueue_pop_capacity_slack :
    (∀ (l : bufferList) (b : batch) (l' : bufferList), l.pop = some (b, l') →
      l'.size = l.size - b.size ∧ l.head = b :: l'.head) ∧
    (∀ (cap mb : Nat) (evs : List Event),
      totalSize (runR (initR cap mb) evs).list.head +
          heldSize (runR (initR cap mb) evs) ≤
        cap + heldSize (runR (initR cap mb) evs)) ∧
    (totalSize (runR (initR 10 10) [.postFail (List.replicate 10 1) "a",
        .drainPop, .postBuffered (List.replicate 10 2) "b"]).list.head +
      heldSize (runR (initR 10 10) [.postFail (List.replicate 10 1) "a",
        .drainPop, .postBuffered (List.replicate 10 2) "b"]) = 20 ∧
     10 < totalSize (runR (initR 10 10) [.postFail (List.replicate 10 1) "a",
        .drainPop, .postBuffered (List.replicate 10 2) "b"]).list.head +
      heldSize (runR (initR 10 10) [.postFail (List.replicate 10 1) "a",
        .drainPop, .postBuffered (List.replicate 10 2) "b"])) := by
  refine ⟨?_, ?_, by decide, by decide⟩
  · intro l b l' h
    obtain ⟨hh, hs, _, _, _⟩ := pop_eq l b l' h
    exact ⟨hs, hh⟩
  · intro cap mb evs
    obtain ⟨⟨h1, h2, _⟩, hms⟩ :=
      runR_list_WF (initR cap mb) evs (newBufferList_WF cap mb)
    have hcap : (runR (initR cap mb) evs).list.maxSize = cap := by
      simpa [initR, newBufferList] using hms
    have : totalSize (runR (initR cap mb) evs).list.head ≤ cap := by
      rw [← h1]
      rw [hcap] at h2
      exact h2
    omega

/-- Witness for C10: popping a 1-byte batch from a one-batch queue
decrements the tracked size to zero while the batch is still
undelivered. -/
theorem retryQueue_pop_capacity_slack_witness :
    (bufferList.mk [] 0 10 10).size =
        (bufferList.mk [batch.mk "a" [[1]] 1] 1 10 10).size -
          (batch.mk "a" [[1]] 1).size ∧
    (bufferList.mk [batch.mk "a" [[1]] 1] 1 10 10).head =
        batch.mk "a" [[1]] 1 :: (bufferList.mk [] 0 10 10).head :=
  retryQueue_pop_capacity_slack.1
    (bufferList.mk [batch.mk "a" [[1]] 1] 1 10 10)
    (batch.mk "a" [[1]] 1)
    (bufferList.mk [] 0 10 10)
    (by decide)
